import Mathlib

/-!
A shallow embedding of the Daily News Roundup core pipeline: the
classification oracle adapter (`classifier.py`), the deduplicator and the
section organizer (`main.py`), and the feedback interpreter
(`workflow.py`).  Stories are Python dicts; they are embedded as a record
of the fields the core reads or writes, plus an `extra` component for the
remaining key/value pairs, which no core function touches.  The external
oracle is fallible and is embedded as a parameter producing either an
error (covering transport failures and unparseable responses, both of
which raise before any result is consumed) or a parsed payload.  Python
floats only ever appear as literals that are stored and compared, never
computed with, so confidences are embedded as rationals.  Code that can
raise after partial work (the batch merge loop) is embedded with explicit
partial results, and exceptions that escape a function are embedded with
`Except`.  Lowercasing in the source is applied to ASCII keyword matching
only, which `String.toLower` models exactly.
-/

namespace DNR

/-- ASCII lowercasing over the string's characters, modelling Python
`str.lower()` on the ASCII text this pipeline matches on. -/
def lowerStr (s : String) : String :=
  String.mk (s.data.map Char.toLower)

/-- The position scan behind `strContains`. -/
def strContainsGo (n : List Char) : List Char → Bool
  | [] => n.isEmpty
  | c :: rest => n.isPrefixOf (c :: rest) || strContainsGo n rest

/-- Python `needle in hay` on strings: contiguous substring containment. -/
def strContains (hay needle : String) : Bool :=
  strContainsGo needle.data hay.data

/-- A story record.  Optional fields model dict keys that may be absent
(`story.get(k)` returning `None`); `extra` models all remaining keys. -/
structure Story where
  headline : Option String := none
  title : Option String := none
  url : Option String := none
  source : Option String := none
  summary : Option String := none
  «section» : Option String := none
  confidence : Option ℚ := none
  filter_reason : Option String := none
  from_airtable : Bool := false
  extra : List (String × String) := []
deriving DecidableEq, Repr

/-- Python `story.get("headline", story.get("title", ""))`. -/
def headlineOrTitle (s : Story) : String :=
  s.headline.getD (s.title.getD "")

/-- Python `story.get("url", "")`: the deduplication identity key. -/
def urlKey (s : Story) : String :=
  s.url.getD ""

/-- `classifier.SECTIONS`: the fixed section enum. -/
def SECTIONS : List String :=
  ["top_stories", "politics", "housing", "education", "health",
   "environment", "lastly", "skip"]

/-! ### Deduplicator (`main.deduplicate_stories`) -/

/-- The loop of `deduplicate_stories`: `seen` is the `seen_urls` set
(embedded as the list of urls added so far).  A story is appended to the
output iff its url is truthy (non-empty) and not yet seen. -/
def dedupGo (seen : List String) : List Story → List Story
  | [] => []
  | s :: rest =>
    if urlKey s ≠ "" ∧ urlKey s ∉ seen then
      s :: dedupGo (urlKey s :: seen) rest
    else
      dedupGo seen rest

/-- `main.deduplicate_stories`. -/
def deduplicate_stories (stories : List Story) : List Story :=
  dedupGo [] stories

/-! ### Classifier post-filter (`classifier.py`) -/

/-- `classifier.TOP_STORIES_EXCLUSION_KEYWORDS`, verbatim (including the
repeated `"robbery"` entry of the source). -/
def TOP_STORIES_EXCLUSION_KEYWORDS : List String :=
  ["carjacked", "carjacking", "robbed", "robbery", "robbery", "murder", "murdered",
   "homicide", "killed", "killing", "stabbed", "stabbing", "shot", "shooting",
   "assault", "assaulted", "armed robbery", "home invasion", "burglar", "burglary",
   "theft", "stolen", "arson", "kidnapped", "kidnapping", "rape", "raped",
   "sex assault", "sexual assault", "manslaughter", "hit-and-run", "hit and run",
   "drug bust", "drug arrest", "overdose", "found dead", "body found",
   "crash", "crashed", "fatal crash", "deadly crash", "wrong-way driver",
   "car accident", "vehicle accident", "truck crash", "bus crash", "pedestrian struck",
   "pedestrian hit", "pedestrian killed", "motorcyclist killed", "cyclist killed",
   "dies in crash", "killed in crash", "injured in crash", "multi-car",
   "multi-vehicle", "pileup", "pile-up", "rollover",
   "house fire", "apartment fire", "building fire", "blaze kills", "fire kills",
   "explosion kills", "gas explosion",
   "drowning", "drowned", "missing person", "amber alert", "child abduction"]

/-- `classifier.is_crime_or_crash_headline`. -/
def is_crime_or_crash_headline (headline : String) : Bool :=
  TOP_STORIES_EXCLUSION_KEYWORDS.any (fun kw => strContains (lowerStr headline) kw)

/-- `classifier.filter_top_stories`: the deterministic post-classification
filter (defined in the source but invoked by no caller). -/
def filter_top_stories (stories : List Story) : List Story :=
  stories.map fun story =>
    if story.«section» == some "top_stories" then
      if is_crime_or_crash_headline (headlineOrTitle story) then
        { story with «section» := some "skip",
                     filter_reason :=
                       some "crime/crash content excluded from top_stories" }
      else story
    else story

/-! ### Single-story classification (`classifier.classify_story`) -/

/-- The dict returned by `classify_story`: the parsed oracle payload with
`section` validated.  `confidence` may be absent when the oracle's JSON
object lacked the key. -/
structure ClsResult where
  «section» : String
  confidence : Option ℚ
  reasoning : Option String
deriving DecidableEq, Repr

/-- Outcome of one single-story oracle call.  `err` covers every exception
in the `try` block: transport errors, `json.loads` failures, and a parsed
payload that is not a JSON object (attribute access raises).  `ok` carries
the fields of the parsed JSON object. -/
inductive SingleResp where
  | err (msg : String)
  | ok («section» : Option String) (confidence : Option ℚ) (reasoning : Option String)
deriving DecidableEq, Repr

/-- `classifier.classify_story`, as a function of the oracle outcome.  The
`except` branch builds the fixed default dict; the success branch replaces
a label outside `SECTIONS` (or an absent one) by `"lastly"` and leaves the
other fields as the oracle produced them. -/
def classify_story (resp : SingleResp) : ClsResult :=
  match resp with
  | .ok sec conf reas =>
    let validated : String :=
      match sec with
      | some s => if SECTIONS.contains s then s else "lastly"
      | none => "lastly"
    { «section» := validated, confidence := conf, reasoning := reas }
  | .err msg =>
    { «section» := "lastly", confidence := some (3/10),
      reasoning := some ("Classification failed: " ++ msg) }

/-! ### Batch classification (`classifier.classify_stories_batch`) -/

/-- One element of a parsed batch-response array: a JSON object with
optional `section`/`confidence` keys, or a non-object (`mal`), on which
`cls.get(...)` raises mid-merge. -/
inductive BEntry where
  | obj («section» : Option String) (confidence : Option ℚ)
  | mal
deriving DecidableEq, Repr

/-- Whether a parsed batch-response entry is a JSON object. -/
def BEntry.isObj : BEntry → Bool
  | .obj _ _ => true
  | .mal => false

/-- Outcome of one whole-batch oracle call.  `fail` covers a transport
error, an unparseable response, and a parsed payload that is not an array
(indexing raises before any result is appended); `arr` is a parsed array
of entries, of any length. -/
inductive BatchResp where
  | fail (msg : String)
  | arr (entries : List BEntry)
deriving DecidableEq, Repr

/-- The merge loop of `classify_stories_batch`: pairs batch stories with
response entries in order.  A story beyond the array's length receives
`lastly`/`0.3`; an `obj` entry contributes its `section` (default
`"lastly"`) and `confidence` (default `0.5`); a `mal` entry raises, so the
loop stops and the flag records that an exception escaped to the
`except` handler (the results appended before the raise are kept). -/
def mergeBatch : List Story → List BEntry → List Story × Bool
  | [], _ => ([], false)
  | story :: rest, [] =>
    let r := mergeBatch rest []
    ({ story with «section» := some "lastly", confidence := some (3/10) } :: r.1, r.2)
  | story :: rest, entry :: es =>
    match entry with
    | .mal => ([], true)
    | .obj sec conf =>
      let r := mergeBatch rest es
      ({ story with «section» := some (sec.getD "lastly"),
                    confidence := some (conf.getD (1/2)) } :: r.1, r.2)

/-- The per-story body of the fallback loop: `classify_story` on the
story, then `story_copy["section"] = result["section"]` and
`story_copy["confidence"] = result["confidence"]`.  The second subscript
raises `KeyError` when the result dict has no `confidence` key, and that
exception is not caught by `classify_stories_batch`. -/
def applySingle (oracle : Story → SingleResp) (story : Story) : Except String Story :=
  let result := classify_story (oracle story)
  match result.confidence with
  | none => .error "KeyError: confidence"
  | some c =>
    .ok { story with «section» := some result.«section», confidence := some c }

/-- The `except` branch of the batch loop: one individual classification
call per story of the batch, in order. -/
def individual_fallback (oracle : Story → SingleResp) : List Story → Except String (List Story)
  | [] => .ok []
  | s :: rest => do
    let r ← applySingle oracle s
    let rs ← individual_fallback oracle rest
    .ok (r :: rs)

/-- Processing of one batch: on a failed or non-array response, the whole
batch degrades to individual calls; on a parsed array, the merge loop
runs, and only if it raised are the individual results appended after the
partial merge results. -/
def processChunk (oracle : Story → SingleResp) (batch : List Story) (resp : BatchResp) :
    Except String (List Story) :=
  match resp with
  | .fail _ => individual_fallback oracle batch
  | .arr entries =>
    let m := mergeBatch batch entries
    if m.2 then do
      let fb ← individual_fallback oracle batch
      .ok (m.1 ++ fb)
    else .ok m.1

set_option linter.unusedVariables false in
/-- `stories[i:i+K]` chunking of the batch loop.  (Python raises
`ValueError` for a zero step; `K = 0` is out of scope and yields `[]`.) -/
def chunkList (K : Nat) (l : List Story) : List (List Story) :=
  if h : l = [] ∨ K = 0 then []
  else l.take K :: chunkList K (l.drop K)
termination_by l.length
decreasing_by
  push_neg at h
  have hl : 0 < l.length := List.length_pos.mpr h.1
  simp only [List.length_drop]
  omega

/-- Chunk-by-chunk driver of `classify_stories_batch`; a raise in any
chunk aborts the whole call with no result. -/
def processChunks (oracleB : List Story → BatchResp) (oracleS : Story → SingleResp) :
    List (List Story) → Except String (List Story)
  | [] => .ok []
  | b :: bs => do
    let r ← processChunk oracleS b (oracleB b)
    let rest ← processChunks oracleB oracleS bs
    .ok (r ++ rest)

/-- `classifier.classify_stories_batch`, as a function of the batch oracle
and the single-story oracle used by the fallback.  `K` is
`max_per_request` (default 10 at every call site). -/
def classify_stories_batch (oracleB : List Story → BatchResp) (oracleS : Story → SingleResp)
    (stories : List Story) (K : Nat) : Except String (List Story) :=
  processChunks oracleB oracleS (chunkList K stories)

/-! ### Pipeline classification step (`main.classify_all_stories`) -/

/-- `airtable_fetcher.SECTION_MAP`. -/
def SECTION_MAP : List (String × String) :=
  [("Top stories", "top_stories"),
   ("Politics + government", "politics"),
   ("Housing + development", "housing"),
   ("Work + education", "education"),
   ("Health + safety", "health"),
   ("Climate + environment", "environment"),
   ("Lastly", "lastly")]

/-- Python `d.get(k, default)` on a string-keyed table. -/
def lookupD (m : List (String × String)) (k d : String) : String :=
  ((m.find? (fun p => p.1 == k)).map Prod.snd).getD d

/-- Python truthiness of `story.get("section")`: present and non-empty. -/
def sectionTruthy (s : Story) : Bool :=
  (s.«section».getD "") != ""

/-- `main.classify_all_stories`: Airtable stories with a truthy section
keep it (translated through `SECTION_MAP`, default `"lastly"`) and come
first; the rest are classified by `classify_stories_batch`.  No caller of
`filter_top_stories` appears here or anywhere else in the repository. -/
def classify_all_stories (oracleB : List Story → BatchResp) (oracleS : Story → SingleResp)
    (stories : List Story) (K : Nat) : Except String (List Story) :=
  let preCls := (stories.filter (fun s => s.from_airtable && sectionTruthy s)).map
    (fun s =>
      let mapped := lookupD SECTION_MAP (s.«section».getD "") "lastly"
      { s with «section» := some mapped })
  let toCls := stories.filter (fun s => !(s.from_airtable && sectionTruthy s))
  do
    let newly ← classify_stories_batch oracleB oracleS toCls K
    .ok (preCls ++ newly)

/-! ### Section organizer (`main.organize_by_section`) -/

/-- The sections dict built by `organize_by_section`: its keys are exactly
`SECTIONS`, so it is embedded as a record of eight ordered buckets. -/
structure Organized where
  top_stories : List Story := []
  politics : List Story := []
  housing : List Story := []
  education : List Story := []
  health : List Story := []
  environment : List Story := []
  lastly : List Story := []
  skip : List Story := []
deriving DecidableEq, Repr

/-- `if section in sections: sections[section].append(story) else:
sections["lastly"].append(story)` over the fixed key set. -/
def addToBucket (o : Organized) (sec : String) (s : Story) : Organized :=
  if sec == "top_stories" then { o with top_stories := o.top_stories ++ [s] }
  else if sec == "politics" then { o with politics := o.politics ++ [s] }
  else if sec == "housing" then { o with housing := o.housing ++ [s] }
  else if sec == "education" then { o with education := o.education ++ [s] }
  else if sec == "health" then { o with health := o.health ++ [s] }
  else if sec == "environment" then { o with environment := o.environment ++ [s] }
  else if sec == "lastly" then { o with lastly := o.lastly ++ [s] }
  else if sec == "skip" then { o with skip := o.skip ++ [s] }
  else { o with lastly := o.lastly ++ [s] }

/-- Overflow keyword group for `politics`. -/
def POLITICS_KW : List String := ["governor", "legislature", "election", "court"]

/-- Overflow keyword group for `housing`. -/
def HOUSING_KW : List String := ["housing", "rent", "development", "zoning"]

/-- Overflow keyword group for `education`. -/
def EDUCATION_KW : List String := ["school", "education", "university", "teacher"]

/-- Overflow keyword group for `health`. -/
def HEALTH_KW : List String := ["health", "hospital", "covid", "medical"]

/-- Overflow keyword group for `environment`. -/
def ENVIRONMENT_KW : List String := ["climate", "environment", "energy", "pollution"]

/-- `any(kw in headline for kw in group)` on the lowered headline. -/
def kwMatch (kws : List String) (story : Story) : Bool :=
  kws.any (fun kw => strContains (lowerStr (headlineOrTitle story)) kw)

/-- The per-story body of the overflow redistribution loop: the lowered
headline is tested against the keyword groups in the source's order and
the story is appended to the first matching group's bucket, else to
`lastly`. -/
def demoteStep (o : Organized) (story : Story) : Organized :=
  if kwMatch POLITICS_KW story then
    { o with politics := o.politics ++ [story] }
  else if kwMatch HOUSING_KW story then
    { o with housing := o.housing ++ [story] }
  else if kwMatch EDUCATION_KW story then
    { o with education := o.education ++ [story] }
  else if kwMatch HEALTH_KW story then
    { o with health := o.health ++ [story] }
  else if kwMatch ENVIRONMENT_KW story then
    { o with environment := o.environment ++ [story] }
  else
    { o with lastly := o.lastly ++ [story] }

/-- `main.organize_by_section` (`max_top_stories` defaults to 6). -/
def organize_by_section (stories : List Story) (max_top_stories : Nat) : Organized :=
  let o := stories.foldl (fun o s => addToBucket o (s.«section».getD "lastly") s) {}
  if o.top_stories.length > max_top_stories then
    let overflow := o.top_stories.drop max_top_stories
    let o2 := { o with top_stories := o.top_stories.take max_top_stories }
    overflow.foldl demoteStep o2
  else o

/-- The bucket a label routes to in the first pass: itself when inside the
fixed enum, else the catch-all. -/
def normKey (sec : String) : String :=
  if SECTIONS.contains sec then sec else "lastly"

/-- The bucket a story routes to in the first pass of
`organize_by_section`. -/
def routeKey (s : Story) : String :=
  normKey (s.«section».getD "lastly")

/-- Whether a story carries the priority label. -/
def isTop (s : Story) : Bool :=
  (s.«section».getD "lastly") == "top_stories"

/-- The section a demoted story is redistributed to: first keyword group
matching the lowered headline, in the fixed order of `demoteStep`, else
the catch-all. -/
def demoteTarget (story : Story) : String :=
  if kwMatch POLITICS_KW story then "politics"
  else if kwMatch HOUSING_KW story then "housing"
  else if kwMatch EDUCATION_KW story then "education"
  else if kwMatch HEALTH_KW story then "health"
  else if kwMatch ENVIRONMENT_KW story then "environment"
  else "lastly"

/-- Bucket projection by section name. -/
def bucketGet (o : Organized) (k : String) : List Story :=
  if k == "top_stories" then o.top_stories
  else if k == "politics" then o.politics
  else if k == "housing" then o.housing
  else if k == "education" then o.education
  else if k == "health" then o.health
  else if k == "environment" then o.environment
  else if k == "lastly" then o.lastly
  else if k == "skip" then o.skip
  else []

/-- All stories of the section dict, in bucket order. -/
def allStories (o : Organized) : List Story :=
  o.top_stories ++ o.politics ++ o.housing ++ o.education ++ o.health ++
    o.environment ++ o.lastly ++ o.skip

/-! ### Feedback interpreter (`workflow.process_feedback`) -/

/-- The sections dict as the feedback interpreter sees it: insertion
ordered, arbitrary string keys (a move may create a new bucket). -/
abbrev SectionMap := List (String × List Story)

/-- Python `sections.get(k)`. -/
def mapGet? (m : SectionMap) (k : String) : Option (List Story) :=
  (m.find? (fun p => p.1 == k)).map Prod.snd

/-- Python `sections.get(k, [])`. -/
def mapGetD (m : SectionMap) (k : String) : List Story :=
  (mapGet? m k).getD []

/-- Python `k in sections`. -/
def mapHasKey (m : SectionMap) (k : String) : Bool :=
  m.any (fun p => p.1 == k)

/-- Python `sections[k] = v` on a present key (position preserved). -/
def mapSet : SectionMap → String → List Story → SectionMap
  | [], _, _ => []
  | (k', v') :: rest, k, v =>
    if k' == k then (k, v) :: rest else (k', v') :: mapSet rest k v

/-- `headline_contains in headline.lower()` with `frag` already
lowered. -/
def matchesFrag (frag : String) (s : Story) : Bool :=
  strContains (lowerStr (headlineOrTitle s)) frag

/-- The `for ... if ... break` search of `process_feedback`: the first
story satisfying the predicate, removed from its position (the Python
`list.remove` of a just-matched story erases exactly that occurrence). -/
def extractFirst (p : Story → Bool) : List Story → Option (Story × List Story)
  | [] => none
  | s :: rest =>
    if p s then some (s, rest)
    else (extractFirst p rest).map (fun r => (r.1, s :: r.2))

/-- One element of the oracle's `actions` array, as a JSON object with
optional keys. -/
structure RawAction where
  action : Option String := none
  headline_contains : Option String := none
  from_section : Option String := none
  to_section : Option String := none
  message : Option String := none
deriving DecidableEq, Repr

/-- Python truthiness of an optional string field. -/
def optTruthy (o : Option String) : Bool :=
  (o.getD "") != ""

/-- The `move` branch: find the first matching story of `fromSec`, remove
it there, create the `toSec` bucket if absent, append the story to it, and
record the action message. -/
def applyMove (m : SectionMap) (frag fromSec toSec : String) : SectionMap × List String :=
  match extractFirst (matchesFrag frag) (mapGetD m fromSec) with
  | none => (m, [])
  | some (story, rest) =>
    let m1 := mapSet m fromSec rest
    let m2 := if mapHasKey m1 toSec then m1 else m1 ++ [(toSec, [])]
    let m3 := mapSet m2 toSec (mapGetD m2 toSec ++ [story])
    (m3, ["Moved '" ++ frag ++ "...' from " ++ fromSec ++ " to " ++ toSec])

/-- The `remove` branch: find the first matching story of `fromSec` and
remove it. -/
def applyRemove (m : SectionMap) (frag fromSec : String) : SectionMap × List String :=
  match extractFirst (matchesFrag frag) (mapGetD m fromSec) with
  | none => (m, [])
  | some (_, rest) =>
    (mapSet m fromSec rest, ["Removed '" ++ frag ++ "...' from " ++ fromSec])

/-- Dispatch of one action dict: `note` only prints; `move`/`remove` run
when their section fields are truthy; anything else is ignored. -/
def applyAction (m : SectionMap) (a : RawAction) : SectionMap × List String :=
  if a.action == some "note" then (m, [])
  else
    let frag := lowerStr (a.headline_contains.getD "")
    if a.action == some "move" && optTruthy a.from_section && optTruthy a.to_section then
      applyMove m frag (a.from_section.getD "") (a.to_section.getD "")
    else if a.action == some "remove" && optTruthy a.from_section then
      applyRemove m frag (a.from_section.getD "")
    else (m, [])

/-- Outcome of one feedback-oracle call.  `err` covers every exception
raised before the `actions` array is traversed: transport errors,
`json.loads` failures, and a parsed payload that is not an object. -/
inductive FeedbackResp where
  | err (msg : String)
  | ok (actions : List RawAction)
deriving DecidableEq, Repr

/-- `workflow.process_feedback`, as a function of the oracle outcome: on
an error the incoming sections dict is returned untouched together with
the error note; otherwise the actions are applied in order and the taken
actions (or the no-match note) are reported. -/
def process_feedback (resp : FeedbackResp) (sections : SectionMap) :
    SectionMap × List String :=
  match resp with
  | .err msg => (sections, ["Error processing feedback: " ++ msg])
  | .ok actions =>
    let out := actions.foldl
      (fun acc a =>
        let r := applyAction acc.1 a
        (r.1, acc.2 ++ r.2))
      (sections, ([] : List String))
    if out.2.isEmpty then
      (out.1, ["No matching stories found for the requested changes."])
    else out

/-! ### Concrete stories and inputs used in witnesses and counterexamples -/

/-- Witness story with a distinct url. -/
def exAlpha : Story := { headline := some "Alpha story", url := some "https://example.com/a" }

/-- Witness story sharing `exAlpha`'s url. -/
def exBeta : Story := { headline := some "Beta story", url := some "https://example.com/a" }

/-- Witness story with a fresh url. -/
def exGamma : Story := { headline := some "Gamma story", url := some "https://example.com/g" }

/-- Witness story with an empty url. -/
def exNoUrl : Story := { headline := some "Orphan story", url := some "" }

/-- Witness story for the feedback move example of the spec. -/
def exNJT : Story := { headline := some "NJ Transit fares rise" }

/-- Witness sections dict for the feedback example. -/
def exFbMap : SectionMap := [("top_stories", [exNJT]), ("politics", [])]

/-- Frame condition of classification: `b` is `a` with only the `section`
and `confidence` keys added or overwritten. -/
def sameFrame (a b : Story) : Prop :=
  b = { a with «section» := b.«section», confidence := b.confidence }

/-- Witness single-story oracle that always answers `politics`. -/
def exPoliticsOracleS : Story → SingleResp :=
  fun _ => .ok (some "politics") (some 1) none

/-- Witness batch oracle returning a parseable empty array. -/
def exEmptyArrOracleB : List Story → BatchResp :=
  fun _ => .arr []

/-- Witness batch oracle whose array has a malformed second entry. -/
def exMalOracleB : List Story → BatchResp :=
  fun _ => .arr [.obj (some "politics") (some 1), .mal]

/-- Witness single-story oracle that always fails. -/
def exErrOracleS : Story → SingleResp :=
  fun _ => .err "transport down"

/-- Witness batch oracle returning two well-formed entries. -/
def exTwoObjOracleB : List Story → BatchResp :=
  fun _ => .arr [.obj (some "politics") (some (8/10)), .obj (some "housing") (some (6/10))]

/-- Expected first output of the two-entry batch witness. -/
def exAlphaPolitics : Story :=
  { exAlpha with «section» := some "politics", confidence := some (8/10) }

/-- Expected second output of the two-entry batch witness. -/
def exBetaHousing : Story :=
  { exBeta with «section» := some "housing", confidence := some (6/10) }

/-- Witness batch oracle classifying everything as a top story. -/
def exTopOracleB : List Story → BatchResp :=
  fun _ => .arr [.obj (some "top_stories") (some (9/10))]

/-- The spec's crime-headline story, as fetched (unclassified). -/
def exCrash : Story :=
  { headline := some "Fatal crash kills two on Route 1",
    url := some "https://example.com/crash", source := some "Example Wire" }

/-- `exCrash` as the pipeline classifies it with `exTopOracleB`. -/
def exCrashTop : Story :=
  { exCrash with «section» := some "top_stories", confidence := some (9/10) }

/-- `exCrashTop` as the (never invoked) post-filter would rewrite it. -/
def exCrashSkip : Story :=
  { exCrashTop with «section» := some "skip", filter_reason := some "crime/crash content excluded from top_stories" }

/-- First priority story of the overflow example. -/
def exTop1 : Story :=
  { headline := some "Statewide budget deal reached",
    url := some "https://example.com/t1", «section» := some "top_stories" }

/-- Second priority story of the overflow example. -/
def exTop2 : Story :=
  { headline := some "Gateway Tunnel funding approved",
    url := some "https://example.com/t2", «section» := some "top_stories" }

/-- Third priority story of the overflow example; its headline contains
`"school board"`. -/
def exTop3 : Story :=
  { headline := some "School board votes on new budget",
    url := some "https://example.com/t3", «section» := some "top_stories" }

/-- Witness story carrying a label outside the fixed enum. -/
def exBogus : Story :=
  { headline := some "Sportsball roundup",
    url := some "https://example.com/sb", «section» := some "sports" }

/-! ## Deduplicator lemmas -/

theorem dedupGo_sublist (seen : List String) (l : List Story) :
    (dedupGo seen l).Sublist l := by
  induction l generalizing seen with
  | nil => simp [dedupGo]
  | cons s rest ih =>
    simp only [dedupGo]
    split
    · exact (ih _).cons₂ s
    · exact (ih seen).cons s

theorem mem_dedupGo {seen : List String} {l : List Story} {s : Story}
    (hs : s ∈ dedupGo seen l) : urlKey s ≠ "" ∧ urlKey s ∉ seen := by
  induction l generalizing seen with
  | nil => simp [dedupGo] at hs
  | cons x rest ih =>
    simp only [dedupGo] at hs
    split at hs
    · rename_i hcond
      rcases List.mem_cons.mp hs with h | h
      · subst h; exact hcond
      · have h2 := ih h
        exact ⟨h2.1, fun hmem => h2.2 (List.mem_cons_of_mem _ hmem)⟩
    · exact ih hs

theorem dedupGo_find {seen : List String} {l : List Story} {s : Story}
    (hs : s ∈ dedupGo seen l) :
    l.find? (fun t => urlKey t == urlKey s) = some s := by
  induction l generalizing seen with
  | nil => simp [dedupGo] at hs
  | cons x rest ih =>
    simp only [dedupGo] at hs
    split at hs
    · rename_i hcond
      rcases List.mem_cons.mp hs with h | h
      · subst h; exact List.find?_cons_of_pos _ (by simp)
      · have hmem := mem_dedupGo h
        have hne : urlKey x ≠ urlKey s := by
          intro he
          exact hmem.2 (he ▸ List.mem_cons_self _ _)
        rw [List.find?_cons_of_neg _ (by simp [hne])]
        exact ih h
    · rename_i hcond
      push_neg at hcond
      have hmem := mem_dedupGo hs
      have hne : urlKey x ≠ urlKey s := by
        by_cases hx : urlKey x = ""
        · intro he; exact hmem.1 (he ▸ hx)
        · intro he; exact hmem.2 (he ▸ hcond hx)
      rw [List.find?_cons_of_neg _ (by simp [hne])]
      exact ih hs

theorem dedupGo_urls_nodup (seen : List String) (l : List Story) :
    ((dedupGo seen l).map urlKey).Nodup := by
  induction l generalizing seen with
  | nil => simp [dedupGo]
  | cons x rest ih =>
    simp only [dedupGo]
    split
    · simp only [List.map_cons, List.nodup_cons]
      refine ⟨fun hmem => ?_, ih _⟩
      rcases List.mem_map.mp hmem with ⟨t, ht, hurl⟩
      exact (mem_dedupGo ht).2 (hurl ▸ List.mem_cons_self _ _)
    · exact ih seen

theorem dedupGo_fixed {seen : List String} {l : List Story}
    (h1 : ∀ s ∈ l, urlKey s ≠ "" ∧ urlKey s ∉ seen)
    (h2 : (l.map urlKey).Nodup) :
    dedupGo seen l = l := by
  induction l generalizing seen with
  | nil => simp [dedupGo]
  | cons x rest ih =>
    have hx := h1 x (List.mem_cons_self _ _)
    simp only [List.map_cons, List.nodup_cons] at h2
    simp only [dedupGo, if_pos hx]
    congr 1
    refine ih (fun s hsmem => ⟨(h1 s (List.mem_cons_of_mem _ hsmem)).1, ?_⟩) h2.2
    intro hmem
    rcases List.mem_cons.mp hmem with he | he
    · exact h2.1 (he ▸ List.mem_map_of_mem urlKey hsmem)
    · exact (h1 s (List.mem_cons_of_mem _ hsmem)).2 he

theorem deduplicate_idem (l : List Story) :
    deduplicate_stories (deduplicate_stories l) = deduplicate_stories l := by
  unfold deduplicate_stories
  refine dedupGo_fixed (fun s hs => ⟨(mem_dedupGo hs).1, by simp⟩) ?_
  exact dedupGo_urls_nodup [] l

theorem dedupGo_covers {l : List Story} {u : String} (hu : u ≠ "") :
    ∀ {seen : List String}, u ∉ seen → (∃ s ∈ l, urlKey s = u) →
      ∃ s ∈ dedupGo seen l, urlKey s = u := by
  induction l with
  | nil => intro seen _ hex; simp at hex
  | cons x rest ih =>
    intro seen hseen hex
    by_cases hx : urlKey x = u
    · have hcond : urlKey x ≠ "" ∧ urlKey x ∉ seen := ⟨hx.symm ▸ hu, hx.symm ▸ hseen⟩
      refine ⟨x, ?_, hx⟩
      simp only [dedupGo, if_pos hcond]
      exact List.mem_cons_self _ _
    · rcases hex with ⟨s, hsmem, hsu⟩
      rcases List.mem_cons.mp hsmem with he | he
      · exact absurd (he ▸ hsu) hx
      · simp only [dedupGo]
        split
        · have hseen2 : u ∉ urlKey x :: seen := by
            simp only [List.mem_cons, not_or]
            exact ⟨fun h => hx h.symm, hseen⟩
          obtain ⟨t, ht, htu⟩ := ih hseen2 ⟨s, he, hsu⟩
          exact ⟨t, List.mem_cons_of_mem _ ht, htu⟩
        · exact ih hseen ⟨s, he, hsu⟩

theorem dedupGo_filter_empties (seen : List String) (l : List Story) :
    dedupGo seen (l.filter (fun s => urlKey s != "")) = dedupGo seen l := by
  induction l generalizing seen with
  | nil => simp
  | cons x rest ih =>
    by_cases hx : urlKey x = ""
    · rw [List.filter_cons_of_neg (by simp [hx])]
      conv_rhs => rw [dedupGo]
      rw [if_neg (by simp [hx]), ih]
    · rw [List.filter_cons_of_pos (by simp [hx])]
      by_cases hseen : urlKey x ∈ seen
      · conv_lhs => rw [dedupGo]
        conv_rhs => rw [dedupGo]
        rw [if_neg (by simp [hseen]), if_neg (by simp [hseen]), ih]
      · conv_lhs => rw [dedupGo]
        conv_rhs => rw [dedupGo]
        rw [if_pos ⟨hx, hseen⟩, if_pos ⟨hx, hseen⟩, ih]

/-- Claim C2: for any input list, `deduplicate_stories` outputs a
subsequence of the input (first-seen order preserved) in which every entry
is the first input occurrence of its url, no two entries share a url, the
length is at most the input length, and the function is idempotent; every
non-empty url of the input is still represented in the output. -/
theorem dedup_contract (l : List Story) :
    (deduplicate_stories l).Sublist l ∧
    (∀ s ∈ deduplicate_stories l,
      l.find? (fun t => urlKey t == urlKey s) = some s) ∧
    ((deduplicate_stories l).map urlKey).Nodup ∧
    (deduplicate_stories l).length ≤ l.length ∧
    deduplicate_stories (deduplicate_stories l) = deduplicate_stories l ∧
    (∀ u, u ≠ "" → (∃ s ∈ l, urlKey s = u) →
      ∃ s ∈ deduplicate_stories l, urlKey s = u) := by
  refine ⟨dedupGo_sublist [] l, fun s hs => dedupGo_find hs, dedupGo_urls_nodup [] l,
    (dedupGo_sublist [] l).length_le, deduplicate_idem l, ?_⟩
  intro u hu hex
  exact dedupGo_covers hu (by simp) hex

/-- Witness for C2 at a concrete input with one duplicate url and one
empty url: evaluates the contract's conclusions. -/
theorem dedup_contract_witness :
    deduplicate_stories [exAlpha, exBeta, exNoUrl, exGamma] = [exAlpha, exGamma] ∧
    (∃ s ∈ deduplicate_stories [exAlpha, exBeta, exNoUrl, exGamma],
      urlKey s = "https://example.com/g") := by
  have h := dedup_contract [exAlpha, exBeta, exNoUrl, exGamma]
  refine ⟨by decide, h.2.2.2.2.2 "https://example.com/g" (by decide) ⟨exGamma, by decide, by decide⟩⟩

/-- Claim C3 (counterexample): a story whose url is the empty string does
not pass through `deduplicate_stories`; it is dropped from the output. -/
theorem dedup_empty_url_cex :
    deduplicate_stories [exNoUrl] = [] ∧ exNoUrl ∉ deduplicate_stories [exNoUrl] := by
  decide

/-- Claim C3 (amended): a story whose url is the empty string never
appears in the output of `deduplicate_stories`, and such stories never
cause the removal of any other story (filtering them out of the input
leaves the output unchanged). -/
theorem dedup_empty_url_amended (l : List Story) :
    (∀ s ∈ deduplicate_stories l, urlKey s ≠ "") ∧
    deduplicate_stories (l.filter (fun s => urlKey s != "")) = deduplicate_stories l :=
  ⟨fun _ hs => (mem_dedupGo hs).1, dedupGo_filter_empties [] l⟩

/-- Witness for the amended C3 at a concrete input containing an
empty-url story. -/
theorem dedup_empty_url_amended_witness :
    urlKey exAlpha ≠ "" ∧
    deduplicate_stories ([exNoUrl, exAlpha].filter (fun s => urlKey s != "")) =
      deduplicate_stories [exNoUrl, exAlpha] := by
  have h := dedup_empty_url_amended [exNoUrl, exAlpha]
  exact ⟨h.1 exAlpha (by decide), h.2⟩

/-! ## SectionMap lemmas -/

theorem mapGet?_cons_self {k : String} {v : List Story} {rest : SectionMap} :
    mapGet? ((k, v) :: rest) k = some v := by
  unfold mapGet?
  rw [List.find?_cons_of_pos _ (by simp)]
  rfl

theorem mapGet?_cons_ne {k0 k : String} {v : List Story} {rest : SectionMap}
    (h : k0 ≠ k) : mapGet? ((k0, v) :: rest) k = mapGet? rest k := by
  unfold mapGet?
  rw [List.find?_cons_of_neg _ (by simp [h])]

theorem mapGet?_mapSet_self {m : SectionMap} {k : String} {v : List Story}
    (h : mapHasKey m k = true) : mapGet? (mapSet m k v) k = some v := by
  induction m with
  | nil => simp [mapHasKey] at h
  | cons p rest ih =>
    obtain ⟨k0, v0⟩ := p
    rw [mapHasKey, List.any_cons, Bool.or_eq_true] at h
    by_cases hk : (k0 == k) = true
    · rw [mapSet, if_pos hk]
      exact mapGet?_cons_self
    · rw [mapSet, if_neg hk]
      rw [mapGet?_cons_ne (by simpa using hk)]
      rcases h with h | h
      · exact absurd h hk
      · exact ih h

theorem mapGet?_mapSet_ne {m : SectionMap} {k k' : String} {v : List Story}
    (h : k' ≠ k) : mapGet? (mapSet m k v) k' = mapGet? m k' := by
  induction m with
  | nil => rfl
  | cons p rest ih =>
    obtain ⟨k0, v0⟩ := p
    by_cases hk : (k0 == k) = true
    · have hkk : k0 = k := by simpa using hk
      rw [mapSet, if_pos hk, mapGet?_cons_ne (Ne.symm h),
        mapGet?_cons_ne (fun he => h (hkk.symm.trans he).symm)]
    · rw [mapSet, if_neg hk]
      by_cases hk' : k0 = k'
      · subst hk'
        rw [mapGet?_cons_self, mapGet?_cons_self]
      · rw [mapGet?_cons_ne hk', mapGet?_cons_ne hk', ih]

theorem mapSet_of_not_hasKey {m : SectionMap} {k : String} {v : List Story}
    (h : mapHasKey m k = false) : mapSet m k v = m := by
  induction m with
  | nil => rfl
  | cons p rest ih =>
    obtain ⟨k0, v0⟩ := p
    rw [mapHasKey, List.any_cons] at h
    rcases Bool.or_eq_false_iff.mp h with ⟨h1, h2⟩
    rw [mapSet, if_neg (by simp [h1]), ih h2]

theorem mapHasKey_mapSet {m : SectionMap} {k k' : String} {v : List Story} :
    mapHasKey (mapSet m k v) k' = mapHasKey m k' := by
  induction m with
  | nil => rfl
  | cons p rest ih =>
    obtain ⟨k0, v0⟩ := p
    by_cases hk : (k0 == k) = true
    · rw [mapSet, if_pos hk, mapHasKey, mapHasKey, List.any_cons, List.any_cons]
      have : (k0 == k') = (k == k') := by
        have : k0 = k := by simpa using hk
        rw [this]
      rw [this]
    · rw [mapSet, if_neg hk, mapHasKey, mapHasKey, List.any_cons, List.any_cons,
        ← mapHasKey, ← mapHasKey, ih]

theorem mapGet?_append_right {m : SectionMap} {k : String} {tail : SectionMap}
    (h : mapHasKey m k = false) : mapGet? (m ++ tail) k = mapGet? tail k := by
  induction m with
  | nil => rfl
  | cons p rest ih =>
    obtain ⟨k0, v0⟩ := p
    rw [mapHasKey, List.any_cons] at h
    rcases Bool.or_eq_false_iff.mp h with ⟨h1, h2⟩
    rw [List.cons_append, mapGet?_cons_ne (by simpa using h1), ih h2]

theorem mapGet?_append_left {m : SectionMap} {k : String} {tail : SectionMap}
    (h : mapHasKey m k = true) : mapGet? (m ++ tail) k = mapGet? m k := by
  induction m with
  | nil => simp [mapHasKey] at h
  | cons p rest ih =>
    obtain ⟨k0, v0⟩ := p
    rw [mapHasKey, List.any_cons, Bool.or_eq_true] at h
    by_cases hk : k0 = k
    · subst hk
      rw [List.cons_append, mapGet?_cons_self, mapGet?_cons_self]
    · rw [List.cons_append, mapGet?_cons_ne hk, mapGet?_cons_ne hk]
      rcases h with h | h
      · exact absurd (by simpa using h) hk
      · exact ih h

theorem mapHasKey_append {m tail : SectionMap} {k : String} :
    mapHasKey (m ++ tail) k = (mapHasKey m k || mapHasKey tail k) := by
  unfold mapHasKey
  exact List.any_append

theorem mapGetD_ne_nil_get? {m : SectionMap} {k : String}
    (h : mapGetD m k ≠ []) : mapGet? m k = some (mapGetD m k) := by
  cases hg : mapGet? m k with
  | none => simp [mapGetD, hg] at h
  | some v => simp [mapGetD, hg]

theorem mapHasKey_of_get?_some {m : SectionMap} {k : String} {v : List Story}
    (h : mapGet? m k = some v) : mapHasKey m k = true := by
  induction m with
  | nil => simp [mapGet?] at h
  | cons p rest ih =>
    obtain ⟨k0, v0⟩ := p
    rw [mapHasKey, List.any_cons, Bool.or_eq_true]
    by_cases hk : k0 = k
    · exact Or.inl (by simp [hk])
    · rw [mapGet?_cons_ne hk] at h
      exact Or.inr (ih h)

/-! ## extractFirst lemmas -/

theorem extractFirst_eq_none {p : Story → Bool} {l : List Story} :
    extractFirst p l = none ↔ ∀ t ∈ l, p t = false := by
  induction l with
  | nil => simp [extractFirst]
  | cons x rest ih =>
    simp only [extractFirst]
    by_cases hx : p x
    · simp [hx]
    · rw [if_neg hx]
      simp only [Option.map_eq_none', ih, List.mem_cons]
      constructor
      · intro h t ht
        rcases ht with rfl | ht
        · exact (Bool.not_eq_true _) ▸ hx
        · exact h t ht
      · intro h t ht
        exact h t (Or.inr ht)

theorem extractFirst_eq_some {p : Story → Bool} {s : Story} :
    ∀ {l rest : List Story}, extractFirst p l = some (s, rest) ↔
      ∃ l1 l2, l = l1 ++ s :: l2 ∧ rest = l1 ++ l2 ∧
        (∀ t ∈ l1, p t = false) ∧ p s = true := by
  intro l
  induction l with
  | nil =>
    intro rest
    constructor
    · intro h; simp [extractFirst] at h
    · rintro ⟨l1, l2, h, -, -, -⟩
      exact absurd h (by simp)
  | cons x xs ih =>
    intro rest
    constructor
    · intro h
      simp only [extractFirst] at h
      by_cases hx : p x
      · rw [if_pos hx] at h
        rw [Option.some.injEq] at h
        have h1 : x = s := congrArg Prod.fst h
        have h2 : xs = rest := congrArg Prod.snd h
        subst h1; subst h2
        exact ⟨[], xs, rfl, rfl, by simp, hx⟩
      · rw [if_neg hx] at h
        rw [Option.map_eq_some'] at h
        obtain ⟨⟨s', rest'⟩, hext, heq⟩ := h
        have h1 : s' = s := congrArg Prod.fst heq
        have h2 : x :: rest' = rest := congrArg Prod.snd heq
        subst h1
        obtain ⟨l1, l2, hll, hrr, hl1, hps⟩ := ih.mp hext
        refine ⟨x :: l1, l2, by simp [hll], by simp [← h2, hrr], ?_, hps⟩
        intro t ht
        rcases List.mem_cons.mp ht with rfl | ht'
        · exact (Bool.not_eq_true _) ▸ hx
        · exact hl1 t ht'
    · rintro ⟨l1, l2, hll, hrr, hl1, hps⟩
      cases l1 with
      | nil =>
        simp only [List.nil_append] at hll hrr
        injection hll with h1 h2
        subst h1; subst h2
        simp only [extractFirst, if_pos hps, hrr]
      | cons y l1' =>
        rw [List.cons_append] at hll
        injection hll with h1 h2
        subst h1
        have hy : p x = false := hl1 x (List.mem_cons_self _ _)
        simp only [extractFirst]
        rw [if_neg (show ¬ (p x = true) by simp [hy])]
        rw [ih.mpr ⟨l1', l2, h2, rfl, fun t ht => hl1 t (List.mem_cons_of_mem _ ht), hps⟩]
        simp only [Option.map_some']
        rw [hrr, List.cons_append]

theorem extractFirst_mem {p : Story → Bool} {l rest : List Story} {s : Story}
    (h : extractFirst p l = some (s, rest)) : s ∈ l := by
  obtain ⟨l1, l2, hll, -, -, -⟩ := extractFirst_eq_some.mp h
  rw [hll]
  exact List.mem_append.mpr (Or.inr (List.mem_cons_self _ _))

theorem extractFirst_not_mem_rest {p : Story → Bool} {l rest : List Story} {s : Story}
    (hcount : l.count s = 1) (h : extractFirst p l = some (s, rest)) : s ∉ rest := by
  obtain ⟨l1, l2, hll, hrr, -, -⟩ := extractFirst_eq_some.mp h
  rw [hll, List.count_append, List.count_cons_self] at hcount
  have h1 : l1.count s = 0 ∧ l2.count s = 0 := by omega
  rw [hrr]
  intro hmem
  rcases List.mem_append.mp hmem with hm | hm
  · exact absurd (List.count_eq_zero.mp h1.1) (by simp [hm])
  · exact absurd (List.count_eq_zero.mp h1.2) (by simp [hm])

theorem mapGet?_none_of_not_hasKey {m : SectionMap} {k : String}
    (h : mapHasKey m k = false) : mapGet? m k = none := by
  cases hg : mapGet? m k with
  | none => rfl
  | some v => rw [mapHasKey_of_get?_some hg] at h; exact absurd h (by simp)

theorem mapGet?_append_single_ne {m : SectionMap} {k t : String} {v : List Story}
    (h : k ≠ t) : mapGet? (m ++ [(t, v)]) k = mapGet? m k := by
  by_cases hk : mapHasKey m k = true
  · exact mapGet?_append_left hk
  · have hk' : mapHasKey m k = false := by simpa using hk
    rw [mapGet?_append_right hk', mapGet?_cons_ne (Ne.symm h),
      mapGet?_none_of_not_hasKey hk']
    rfl

/-! ## Feedback interpreter theorems -/

theorem applyAction_move_eq (m : SectionMap) (hc f t : String)
    (hf : f ≠ "") (ht : t ≠ "") :
    applyAction m { action := some "move", headline_contains := some hc,
                    from_section := some f, to_section := some t } =
      applyMove m (lowerStr hc) f t := by
  unfold applyAction
  rw [if_neg (by simp), if_pos (by simp [optTruthy, hf, ht])]
  rfl

theorem applyAction_remove_eq (m : SectionMap) (hc f : String) (hf : f ≠ "") :
    applyAction m { action := some "remove", headline_contains := some hc,
                    from_section := some f } =
      applyRemove m (lowerStr hc) f := by
  unfold applyAction
  rw [if_neg (by simp), if_neg (by simp [optTruthy]), if_pos (by simp [optTruthy, hf])]
  rfl

/-- Claim C1: if the feedback-oracle call fails (transport error or
unparseable response, both of which raise before any action is applied),
`process_feedback` returns the incoming section map itself — no partial
mutation — together with an error note for the caller. -/
theorem process_feedback_error_identity (msg : String) (sections : SectionMap) :
    process_feedback (.err msg) sections =
      (sections, ["Error processing feedback: " ++ msg]) := rfl

/-- Claim C4: a `move`/`remove` action removes exactly the first story, in
original within-section order, of `from_section` whose headline contains
the fragment case-insensitively; with no match (in particular when
`from_section` is unknown, so the searched list is empty) it is a no-op
reported as "no matching stories" and never an error; a move appends the
story to `to_section`, creating the bucket when absent, and touches no
other bucket; and after a successful move between distinct sections the
moved story is gone from `from_section`, so re-applying the identical
action can only select a different story. -/
theorem feedback_move_remove_contract (m : SectionMap) (hc f t : String)
    (hf : f ≠ "") (ht : t ≠ "") :
    applyAction m { action := some "move", headline_contains := some hc,
                    from_section := some f, to_section := some t } =
      applyMove m (lowerStr hc) f t ∧
    applyAction m { action := some "remove", headline_contains := some hc,
                    from_section := some f } =
      applyRemove m (lowerStr hc) f ∧
    (extractFirst (matchesFrag (lowerStr hc)) (mapGetD m f) = none →
      applyMove m (lowerStr hc) f t = (m, []) ∧
      applyRemove m (lowerStr hc) f = (m, []) ∧
      process_feedback
          (.ok [{ action := some "move", headline_contains := some hc,
                  from_section := some f, to_section := some t }]) m =
        (m, ["No matching stories found for the requested changes."])) ∧
    (∀ s rest,
      extractFirst (matchesFrag (lowerStr hc)) (mapGetD m f) = some (s, rest) →
      (∃ l1 l2, mapGetD m f = l1 ++ s :: l2 ∧ rest = l1 ++ l2 ∧
        (∀ u ∈ l1, matchesFrag (lowerStr hc) u = false) ∧
        matchesFrag (lowerStr hc) s = true) ∧
      (applyMove m (lowerStr hc) f t).2 =
        ["Moved '" ++ (lowerStr hc) ++ "...' from " ++ f ++ " to " ++ t] ∧
      (mapGet? (applyMove m (lowerStr hc) f t).1 t).isSome = true ∧
      (f ≠ t →
        mapGet? (applyMove m (lowerStr hc) f t).1 t = some (mapGetD m t ++ [s]) ∧
        mapGet? (applyMove m (lowerStr hc) f t).1 f = some rest) ∧
      (∀ k, k ≠ f → k ≠ t →
        mapGet? (applyMove m (lowerStr hc) f t).1 k = mapGet? m k) ∧
      (f ≠ t → (mapGetD m f).count s = 1 →
        s ∉ mapGetD (applyMove m (lowerStr hc) f t).1 f ∧
        (∀ s2 rest2,
          extractFirst (matchesFrag (lowerStr hc))
              (mapGetD (applyMove m (lowerStr hc) f t).1 f) = some (s2, rest2) →
          s2 ≠ s)) ∧
      ((applyRemove m (lowerStr hc) f).1 = mapSet m f rest ∧
       mapGet? (mapSet m f rest) f = some rest ∧
       (∀ k, k ≠ f → mapGet? (mapSet m f rest) k = mapGet? m k))) := by
  refine ⟨applyAction_move_eq m hc f t hf ht, applyAction_remove_eq m hc f hf, ?_, ?_⟩
  · intro hnone
    have hmv : applyMove m (lowerStr hc) f t = (m, []) := by
      unfold applyMove
      rw [hnone]
    have hrm : applyRemove m (lowerStr hc) f = (m, []) := by
      unfold applyRemove
      rw [hnone]
    refine ⟨hmv, hrm, ?_⟩
    unfold process_feedback
    simp only [List.foldl_cons, List.foldl_nil]
    rw [applyAction_move_eq m hc f t hf ht, hmv]
    rfl
  · intro s rest hextract
    have hLne : mapGetD m f ≠ [] := by
      intro hnil
      rw [hnil] at hextract
      simp [extractFirst] at hextract
    have hLget : mapGet? m f = some (mapGetD m f) := mapGetD_ne_nil_get? hLne
    have hKeyF : mapHasKey m f = true := mapHasKey_of_get?_some hLget
    -- the reduced move result
    have hmv : applyMove m (lowerStr hc) f t =
        (mapSet (if mapHasKey (mapSet m f rest) t then mapSet m f rest
                 else mapSet m f rest ++ [(t, [])]) t
           (mapGetD (if mapHasKey (mapSet m f rest) t then mapSet m f rest
                     else mapSet m f rest ++ [(t, [])]) t ++ [s]),
         ["Moved '" ++ (lowerStr hc) ++ "...' from " ++ f ++ " to " ++ t]) := by
      unfold applyMove
      rw [hextract]
    have hKey2 : mapHasKey (if mapHasKey (mapSet m f rest) t then mapSet m f rest
        else mapSet m f rest ++ [(t, [])]) t = true := by
      by_cases hkt : mapHasKey (mapSet m f rest) t = true
      · rw [if_pos hkt]; exact hkt
      · rw [if_neg hkt, mapHasKey_append, Bool.or_eq_true]
        exact Or.inr (by simp [mapHasKey])
    have hGet2t : mapGet? (if mapHasKey (mapSet m f rest) t then mapSet m f rest
        else mapSet m f rest ++ [(t, [])]) t = mapGet? (mapSet m f rest) t ∨
        (mapGet? (if mapHasKey (mapSet m f rest) t then mapSet m f rest
          else mapSet m f rest ++ [(t, [])]) t = some [] ∧
         mapGet? (mapSet m f rest) t = none) := by
      by_cases hkt : mapHasKey (mapSet m f rest) t = true
      · rw [if_pos hkt]; exact Or.inl rfl
      · rw [if_neg hkt]
        refine Or.inr ⟨?_, mapGet?_none_of_not_hasKey (by simpa using hkt)⟩
        rw [mapGet?_append_right (by simpa using hkt)]
        exact mapGet?_cons_self
    refine ⟨extractFirst_eq_some.mp hextract, by rw [hmv], ?_, ?_, ?_, ?_, ?_⟩
    · rw [hmv]
      simp only
      rw [mapGet?_mapSet_self hKey2]
      rfl
    · intro hft
      have hgt : mapGet? (mapSet m f rest) t = mapGet? m t :=
        mapGet?_mapSet_ne (Ne.symm hft)
      have hDt : mapGetD (if mapHasKey (mapSet m f rest) t then mapSet m f rest
          else mapSet m f rest ++ [(t, [])]) t = mapGetD m t := by
        rcases hGet2t with hcase | ⟨hcase, hnone⟩
        · rw [mapGetD, hcase, hgt, mapGetD]
        · rw [mapGetD, hcase, mapGetD, ← hgt, hnone]
          rfl
      constructor
      · rw [hmv]
        simp only
        rw [mapGet?_mapSet_self hKey2, hDt]
      · rw [hmv]
        simp only
        rw [mapGet?_mapSet_ne hft]
        have hgf : mapGet? (if mapHasKey (mapSet m f rest) t then mapSet m f rest
            else mapSet m f rest ++ [(t, [])]) f = mapGet? (mapSet m f rest) f := by
          by_cases hkt : mapHasKey (mapSet m f rest) t = true
          · rw [if_pos hkt]
          · rw [if_neg hkt, mapGet?_append_single_ne hft]
        rw [hgf, mapGet?_mapSet_self hKeyF]
    · intro k hkf hkt
      rw [hmv]
      simp only
      rw [mapGet?_mapSet_ne hkt]
      have hgk : mapGet? (if mapHasKey (mapSet m f rest) t then mapSet m f rest
          else mapSet m f rest ++ [(t, [])]) k = mapGet? (mapSet m f rest) k := by
        by_cases hkt2 : mapHasKey (mapSet m f rest) t = true
        · rw [if_pos hkt2]
        · rw [if_neg hkt2, mapGet?_append_single_ne hkt]
      rw [hgk, mapGet?_mapSet_ne hkf]
    · intro hft hcount
      have hnotmem : s ∉ rest := extractFirst_not_mem_rest hcount hextract
      have hgetf : mapGet? (applyMove m (lowerStr hc) f t).1 f = some rest := by
        rw [hmv]
        simp only
        rw [mapGet?_mapSet_ne hft]
        have hgf : mapGet? (if mapHasKey (mapSet m f rest) t then mapSet m f rest
            else mapSet m f rest ++ [(t, [])]) f = mapGet? (mapSet m f rest) f := by
          by_cases hkt : mapHasKey (mapSet m f rest) t = true
          · rw [if_pos hkt]
          · rw [if_neg hkt, mapGet?_append_single_ne hft]
        rw [hgf, mapGet?_mapSet_self hKeyF]
      have hgD : mapGetD (applyMove m (lowerStr hc) f t).1 f = rest := by
        rw [mapGetD, hgetf]
        rfl
      refine ⟨by rw [hgD]; exact hnotmem, ?_⟩
      intro s2 rest2 hext2
      rw [hgD] at hext2
      intro hs2
      exact hnotmem (hs2 ▸ extractFirst_mem hext2)
    · have hrm : applyRemove m (lowerStr hc) f = (mapSet m f rest,
          ["Removed '" ++ (lowerStr hc) ++ "...' from " ++ f]) := by
        unfold applyRemove
        rw [hextract]
      refine ⟨by rw [hrm], mapGet?_mapSet_self hKeyF, ?_⟩
      intro k hkf
      exact mapGet?_mapSet_ne hkf

/-- Witness for C4 at the spec's example: the NJ Transit story moves from
`top_stories` to `politics`, and re-applying the identical action on the
resulting map is a no-op reported as "no matching stories". -/
theorem feedback_move_remove_contract_witness :
    mapGet? (applyMove exFbMap (lowerStr "NJ Transit") "top_stories" "politics").1 "politics" =
      some [exNJT] ∧
    mapGet? (applyMove exFbMap (lowerStr "NJ Transit") "top_stories" "politics").1 "top_stories" =
      some [] ∧
    process_feedback
        (.ok [{ action := some "move", headline_contains := some "NJ Transit",
                from_section := some "top_stories", to_section := some "politics" }])
        (applyMove exFbMap (lowerStr "NJ Transit") "top_stories" "politics").1 =
      ((applyMove exFbMap (lowerStr "NJ Transit") "top_stories" "politics").1,
       ["No matching stories found for the requested changes."]) := by
  have h := feedback_move_remove_contract exFbMap "NJ Transit" "top_stories" "politics"
    (by decide) (by decide)
  have hx : extractFirst (matchesFrag (lowerStr "NJ Transit")) (mapGetD exFbMap "top_stories") =
      some (exNJT, []) := by decide
  obtain ⟨-, -, -, hsome⟩ := h
  obtain ⟨-, -, -, hft, -, -, -⟩ := hsome exNJT [] hx
  have hres := hft (by decide)
  have h2 := feedback_move_remove_contract
    (applyMove exFbMap (lowerStr "NJ Transit") "top_stories" "politics").1
    "NJ Transit" "top_stories" "politics" (by decide) (by decide)
  have hx2 : extractFirst (matchesFrag (lowerStr "NJ Transit"))
      (mapGetD (applyMove exFbMap (lowerStr "NJ Transit") "top_stories" "politics").1
        "top_stories") = none := by decide
  refine ⟨?_, ?_, (h2.2.2.1 hx2).2.2⟩
  · rw [hres.1]
    decide
  · exact hres.2

/-! ## Classifier lemmas -/

theorem chunkList_nil {K : Nat} : chunkList K [] = [] := by
  rw [chunkList]
  simp

theorem chunkList_cons {K : Nat} {l : List Story} (h1 : l ≠ []) (h2 : K ≠ 0) :
    chunkList K l = l.take K :: chunkList K (l.drop K) := by
  rw [chunkList]
  rw [dif_neg (by simp [h1, h2])]

theorem chunkList_small {K : Nat} {l : List Story} (h1 : l ≠ []) (h2 : K ≠ 0)
    (h3 : l.length ≤ K) : chunkList K l = [l] := by
  rw [chunkList_cons h1 h2, List.take_of_length_le h3, List.drop_eq_nil_of_le h3,
    chunkList_nil]

theorem chunkList_join_aux {K : Nat} (hK : K ≠ 0) :
    ∀ (n : Nat) (l : List Story), l.length ≤ n → (chunkList K l).flatten = l := by
  intro n
  induction n with
  | zero =>
    intro l hl
    have h0 : l = [] := List.eq_nil_of_length_eq_zero (Nat.le_zero.mp hl)
    rw [h0, chunkList_nil]
    rfl
  | succ n ih =>
    intro l hl
    by_cases hnil : l = []
    · rw [hnil, chunkList_nil]
      rfl
    · rw [chunkList_cons hnil hK, List.flatten_cons, ih (l.drop K) ?_,
        List.take_append_drop]
      have hpos : 0 < l.length := List.length_pos.mpr hnil
      have hKpos : 0 < K := Nat.pos_of_ne_zero hK
      simp only [List.length_drop]
      omega

theorem chunkList_join {K : Nat} (hK : K ≠ 0) (l : List Story) :
    (chunkList K l).flatten = l :=
  chunkList_join_aux hK l.length l le_rfl

theorem mergeBatch_entries_nil (batch : List Story) :
    mergeBatch batch [] =
      (batch.map (fun s =>
        { s with «section» := some "lastly", confidence := some (3/10) }), false) := by
  induction batch with
  | nil => rfl
  | cons s rest ih => simp [mergeBatch, ih]

theorem mergeBatch_no_mal : ∀ (batch : List Story) (entries : List BEntry),
    (∀ e ∈ entries, e.isObj = true) → (mergeBatch batch entries).2 = false := by
  intro batch
  induction batch with
  | nil => intro entries _; rfl
  | cons s rest ih =>
    intro entries h
    cases entries with
    | nil => rw [mergeBatch_entries_nil]
    | cons e es =>
      cases e with
      | mal => exact absurd (h .mal (List.mem_cons_self _ _)) (by simp [BEntry.isObj])
      | obj sec conf =>
        simp only [mergeBatch]
        exact ih es (fun e he => h e (List.mem_cons_of_mem _ he))

theorem mergeBatch_forall₂ : ∀ (batch : List Story) (entries : List BEntry),
    (∀ e ∈ entries, e.isObj = true) →
    List.Forall₂ sameFrame batch (mergeBatch batch entries).1 := by
  intro batch
  induction batch with
  | nil => intro entries _; simp [mergeBatch]
  | cons s rest ih =>
    intro entries h
    cases entries with
    | nil =>
      simp only [mergeBatch]
      exact List.Forall₂.cons rfl (ih [] (by simp))
    | cons e es =>
      cases e with
      | mal => exact absurd (h .mal (List.mem_cons_self _ _)) (by simp [BEntry.isObj])
      | obj sec conf =>
        simp only [mergeBatch]
        exact List.Forall₂.cons rfl (ih es (fun e he => h e (List.mem_cons_of_mem _ he)))

theorem individual_fallback_ok {oracle : Story → SingleResp}
    (hS : ∀ s, ∃ c, (classify_story (oracle s)).confidence = some c) :
    ∀ batch : List Story, ∃ out, individual_fallback oracle batch = .ok out ∧
      List.Forall₂ sameFrame batch out := by
  intro batch
  induction batch with
  | nil => exact ⟨[], rfl, List.Forall₂.nil⟩
  | cons s rest ih =>
    obtain ⟨c, hc⟩ := hS s
    obtain ⟨out, hout, hf⟩ := ih
    have h1 : applySingle oracle s = .ok { s with «section» := some (classify_story (oracle s)).«section», confidence := some c } := by
      simp only [applySingle, hc]
    refine ⟨{ s with «section» := some (classify_story (oracle s)).«section», confidence := some c } :: out, ?_, List.Forall₂.cons rfl hf⟩
    rw [individual_fallback, h1, hout]
    rfl

theorem processChunk_frame {oracleS : Story → SingleResp}
    (hS : ∀ s, ∃ c, (classify_story (oracleS s)).confidence = some c)
    (batch : List Story) (resp : BatchResp)
    (hresp : ∀ entries, resp = .arr entries → ∀ e ∈ entries, e.isObj = true) :
    ∃ out, processChunk oracleS batch resp = .ok out ∧
      List.Forall₂ sameFrame batch out := by
  cases resp with
  | fail msg => simpa [processChunk] using individual_fallback_ok hS batch
  | arr entries =>
    have hobj := hresp entries rfl
    refine ⟨(mergeBatch batch entries).1, ?_, mergeBatch_forall₂ batch entries hobj⟩
    simp [processChunk, mergeBatch_no_mal batch entries hobj]

theorem processChunks_frame {oracleB : List Story → BatchResp} {oracleS : Story → SingleResp}
    (hB : ∀ b entries, oracleB b = .arr entries → ∀ e ∈ entries, e.isObj = true)
    (hS : ∀ s, ∃ c, (classify_story (oracleS s)).confidence = some c) :
    ∀ chunks : List (List Story), ∃ out, processChunks oracleB oracleS chunks = .ok out ∧
      List.Forall₂ sameFrame chunks.flatten out := by
  intro chunks
  induction chunks with
  | nil => exact ⟨[], rfl, by simp⟩
  | cons b bs ih =>
    obtain ⟨out1, h1, hf1⟩ := processChunk_frame hS b (oracleB b) (fun entries he => hB b entries he)
    obtain ⟨out2, h2, hf2⟩ := ih
    refine ⟨out1 ++ out2, ?_, ?_⟩
    · rw [processChunks, h1, h2]
      rfl
    · simpa using List.rel_append hf1 hf2

/-! ## Classifier claim theorems -/

/-- Claim C6 (counterexample): when the oracle returns a parseable object
whose label is outside the enum, `classify_story` replaces the label by
the default but keeps the oracle's confidence — here 0.9, not strictly
below 0.5 — and records no failure. -/
theorem classify_story_invalid_label_cex :
    classify_story (.ok (some "sports") (some (9/10)) none) =
      { «section» := "lastly", confidence := some (9/10), reasoning := none } ∧
    ¬ ((9 : ℚ)/10 < 1/2) :=
  ⟨rfl, by norm_num⟩

/-- Claim C6 (amended): when the oracle call raises, `classify_story`
returns the default label with confidence 0.3 (below 0.5) and the failure
recorded in `reasoning`, never raising itself; when the call succeeds but
the returned label is outside (or absent from) the enum, only the label is
replaced by the default — the returned confidence passes through
unchanged, not forced below 0.5 — and the resulting label always lies in
the enum.  The batch merge path applies no label validation at all. -/
theorem classify_story_amended :
    (∀ msg, classify_story (.err msg) =
        { «section» := "lastly", confidence := some (3/10),
          reasoning := some ("Classification failed: " ++ msg) }) ∧
    ((3 : ℚ)/10 < 1/2) ∧
    (∀ sec conf reas, SECTIONS.contains sec = false →
      classify_story (.ok (some sec) conf reas) =
        { «section» := "lastly", confidence := conf, reasoning := reas }) ∧
    (∀ conf reas, classify_story (.ok none conf reas) =
      { «section» := "lastly", confidence := conf, reasoning := reas }) ∧
    (∀ resp, SECTIONS.contains (classify_story resp).«section» = true) ∧
    (∀ (s : Story) (sec : String) (conf : ℚ),
      (mergeBatch [s] [.obj (some sec) (some conf)]).1 =
        [{ s with «section» := some sec, confidence := some conf }]) := by
  refine ⟨fun msg => rfl, by norm_num, ?_, fun conf reas => rfl, ?_, fun s sec conf => rfl⟩
  · intro sec conf reas hsec
    unfold classify_story
    simp only
    rw [if_neg (by simpa using hsec)]
  · intro resp
    cases resp with
    | err msg => exact show SECTIONS.contains "lastly" = true by decide
    | ok sec conf reas =>
      cases sec with
      | none => exact show SECTIONS.contains "lastly" = true by decide
      | some s0 =>
        show SECTIONS.contains (if SECTIONS.contains s0 = true then s0 else "lastly") = true
        by_cases hs : SECTIONS.contains s0 = true
        · rw [if_pos hs]; exact hs
        · rw [if_neg hs]; decide

/-- Witness for the amended C6 at a concrete out-of-enum label. -/
theorem classify_story_amended_witness :
    SECTIONS.contains "sports" = false ∧
    classify_story (.ok (some "sports") (some (7/10)) none) =
      { «section» := "lastly", confidence := some (7/10), reasoning := none } := by
  have h := classify_story_amended
  exact ⟨by decide, h.2.2.1 "sports" (some (7/10)) none (by decide)⟩

/-- Claim C7 (counterexample): a parseable empty-array response for a
one-story batch does not trigger the per-story fallback; the story is
assigned the default directly, which differs from what the individual call
would have produced. -/
theorem batch_fallback_cex :
    classify_stories_batch exEmptyArrOracleB exPoliticsOracleS [exAlpha] 10 =
      .ok [{ exAlpha with «section» := some "lastly", confidence := some (3/10) }] ∧
    individual_fallback exPoliticsOracleS [exAlpha] =
      .ok [{ exAlpha with «section» := some "politics", confidence := some 1 }] ∧
    ({ exAlpha with «section» := some "lastly", confidence := some (3/10) } : Story) ≠
      { exAlpha with «section» := some "politics", confidence := some 1 } := by
  refine ⟨?_, rfl, fun h => by simpa using congrArg Story.«section» h⟩
  unfold classify_stories_batch
  rw [chunkList_small (by simp) (by simp) (by simp)]
  rfl

/-- Claim C7 (amended): a transport error or unparseable/non-array
response degrades the whole batch to one individual call per story under
the identical per-story contract; but a response that parses as an array
of well-formed objects never triggers the fallback, even with fewer
entries than stories — each uncovered story is assigned `lastly`/`0.3`
directly. -/
theorem batch_fallback_amended :
    (∀ (oracle : Story → SingleResp) (batch : List Story) (msg : String),
      processChunk oracle batch (.fail msg) = individual_fallback oracle batch) ∧
    (∀ (oracle : Story → SingleResp) (batch : List Story) (entries : List BEntry),
      (∀ e ∈ entries, e.isObj = true) →
      processChunk oracle batch (.arr entries) = .ok (mergeBatch batch entries).1) ∧
    (∀ batch : List Story,
      (mergeBatch batch []).1 =
        batch.map (fun s =>
          { s with «section» := some "lastly", confidence := some (3/10) })) := by
  refine ⟨fun _ _ _ => rfl, ?_, ?_⟩
  · intro oracle batch entries h
    simp [processChunk, mergeBatch_no_mal batch entries h]
  · intro batch
    rw [mergeBatch_entries_nil]

/-- Witness for the amended C7: a failed batch call degrades to the
individual contract, and an all-object short array fills in defaults
without fallback. -/
theorem batch_fallback_amended_witness :
    processChunk exPoliticsOracleS [exAlpha] (.fail "down") =
      individual_fallback exPoliticsOracleS [exAlpha] ∧
    processChunk exPoliticsOracleS [exAlpha] (.arr []) =
      .ok [{ exAlpha with «section» := some "lastly", confidence := some (3/10) }] := by
  have h := batch_fallback_amended
  refine ⟨h.1 exPoliticsOracleS [exAlpha] "down", ?_⟩
  rw [h.2.1 exPoliticsOracleS [exAlpha] [] (by simp), h.2.2 [exAlpha]]
  rfl

/-- Claim C10 (counterexample): a parsed array whose second entry is
malformed raises mid-merge; the already-merged first story is kept and the
whole batch is then classified again by the fallback, so a two-story input
yields three output records — not exactly one per story. -/
theorem batch_output_count_cex :
    classify_stories_batch exMalOracleB exErrOracleS [exAlpha, exBeta] 10 =
      .ok [{ exAlpha with «section» := some "politics", confidence := some 1 },
           { exAlpha with «section» := some "lastly", confidence := some (3/10) },
           { exBeta with «section» := some "lastly", confidence := some (3/10) }] ∧
    [{ exAlpha with «section» := some "politics", confidence := some 1 },
     { exAlpha with «section» := some "lastly", confidence := some (3/10) },
     { exBeta with «section» := some "lastly", confidence := some (3/10) }].length ≠
      [exAlpha, exBeta].length := by
  constructor
  · unfold classify_stories_batch
    rw [chunkList_small (by simp) (by simp) (by simp)]
    rfl
  · decide

/-- Claim C10 (amended): whenever every entry of each parsed batch
response is a well-formed object, and every per-story fallback result
carries a confidence key, `classify_stories_batch` returns exactly one
output record per input story, in input order, each preserving every field
of its input story except `section` and `confidence`. -/
theorem classify_batch_frame (oracleB : List Story → BatchResp) (oracleS : Story → SingleResp)
    (l : List Story) (K : Nat) (hK : K ≠ 0)
    (hB : ∀ b entries, oracleB b = .arr entries → ∀ e ∈ entries, e.isObj = true)
    (hS : ∀ s, ∃ c, (classify_story (oracleS s)).confidence = some c) :
    ∃ out, classify_stories_batch oracleB oracleS l K = .ok out ∧
      List.Forall₂ sameFrame l out := by
  obtain ⟨out, hout, hf⟩ := processChunks_frame hB hS (chunkList K l)
  exact ⟨out, hout, by rwa [chunkList_join hK l] at hf⟩

/-- Witness for the amended C10 at a two-story batch with a well-formed
two-entry response. -/
theorem classify_batch_frame_witness :
    classify_stories_batch exTwoObjOracleB exErrOracleS [exAlpha, exBeta] 10 =
      .ok [exAlphaPolitics, exBetaHousing] ∧
    sameFrame exAlpha exAlphaPolitics ∧ sameFrame exBeta exBetaHousing := by
  have hval : classify_stories_batch exTwoObjOracleB exErrOracleS [exAlpha, exBeta] 10 =
      .ok [exAlphaPolitics, exBetaHousing] := by
    unfold classify_stories_batch
    rw [chunkList_small (by simp) (by simp) (by simp)]
    rfl
  obtain ⟨out, hout, hf⟩ := classify_batch_frame exTwoObjOracleB exErrOracleS
    [exAlpha, exBeta] 10 (by simp)
    (by intro b entries h; injection h with h2; subst h2; decide)
    (fun s => ⟨3/10, rfl⟩)
  have heq : out = [exAlphaPolitics, exBetaHousing] :=
    Except.ok.inj (hout.symm.trans hval)
  rw [heq] at hf
  exact ⟨hval, (List.forall₂_cons.mp hf).1, (List.forall₂_cons.mp (List.forall₂_cons.mp hf).2).1⟩


/-! ## Organizer lemmas -/

theorem bucketGet_empty (k : String) : bucketGet ({} : Organized) k = [] := by
  unfold bucketGet
  split_ifs <;> rfl

theorem bucketGet_top (o : Organized) : bucketGet o "top_stories" = o.top_stories := rfl

theorem bucketGet_set_top {o : Organized} {v : List Story} {k : String}
    (hk : k ≠ "top_stories") :
    bucketGet { o with top_stories := v } k = bucketGet o k := by
  unfold bucketGet
  split_ifs <;> simp_all

theorem sections_cases {k : String} (hk : SECTIONS.contains k = true) :
    k = "top_stories" ∨ k = "politics" ∨ k = "housing" ∨ k = "education" ∨
      k = "health" ∨ k = "environment" ∨ k = "lastly" ∨ k = "skip" := by
  simpa [SECTIONS] using hk

theorem bucketGet_addToBucket (o : Organized) (sec : String) (s : Story) (k : String)
    (hk : SECTIONS.contains k = true) :
    bucketGet (addToBucket o sec s) k =
      bucketGet o k ++ (if normKey sec == k then [s] else []) := by
  have hk' := sections_cases hk
  by_cases h1 : (sec == "top_stories") = true
  · have e : sec = "top_stories" := by simpa using h1
    subst e
    rcases hk' with rfl | rfl | rfl | rfl | rfl | rfl | rfl | rfl <;>
      simp [addToBucket, bucketGet, normKey, SECTIONS]
  ·
    by_cases h2 : (sec == "politics") = true
    · have e : sec = "politics" := by simpa using h2
      subst e
      rcases hk' with rfl | rfl | rfl | rfl | rfl | rfl | rfl | rfl <;>
        simp [addToBucket, bucketGet, normKey, SECTIONS]
    ·
      by_cases h3 : (sec == "housing") = true
      · have e : sec = "housing" := by simpa using h3
        subst e
        rcases hk' with rfl | rfl | rfl | rfl | rfl | rfl | rfl | rfl <;>
          simp [addToBucket, bucketGet, normKey, SECTIONS]
      ·
        by_cases h4 : (sec == "education") = true
        · have e : sec = "education" := by simpa using h4
          subst e
          rcases hk' with rfl | rfl | rfl | rfl | rfl | rfl | rfl | rfl <;>
            simp [addToBucket, bucketGet, normKey, SECTIONS]
        ·
          by_cases h5 : (sec == "health") = true
          · have e : sec = "health" := by simpa using h5
            subst e
            rcases hk' with rfl | rfl | rfl | rfl | rfl | rfl | rfl | rfl <;>
              simp [addToBucket, bucketGet, normKey, SECTIONS]
          ·
            by_cases h6 : (sec == "environment") = true
            · have e : sec = "environment" := by simpa using h6
              subst e
              rcases hk' with rfl | rfl | rfl | rfl | rfl | rfl | rfl | rfl <;>
                simp [addToBucket, bucketGet, normKey, SECTIONS]
            ·
              by_cases h7 : (sec == "lastly") = true
              · have e : sec = "lastly" := by simpa using h7
                subst e
                rcases hk' with rfl | rfl | rfl | rfl | rfl | rfl | rfl | rfl <;>
                  simp [addToBucket, bucketGet, normKey, SECTIONS]
              ·
                by_cases h8 : (sec == "skip") = true
                · have e : sec = "skip" := by simpa using h8
                  subst e
                  rcases hk' with rfl | rfl | rfl | rfl | rfl | rfl | rfl | rfl <;>
                    simp [addToBucket, bucketGet, normKey, SECTIONS]
                ·
                  have hne1 : sec ≠ "top_stories" := by simpa using h1
                  have hne2 : sec ≠ "politics" := by simpa using h2
                  have hne3 : sec ≠ "housing" := by simpa using h3
                  have hne4 : sec ≠ "education" := by simpa using h4
                  have hne5 : sec ≠ "health" := by simpa using h5
                  have hne6 : sec ≠ "environment" := by simpa using h6
                  have hne7 : sec ≠ "lastly" := by simpa using h7
                  have hne8 : sec ≠ "skip" := by simpa using h8
                  have hcon : SECTIONS.contains sec = false := by
                    simp [SECTIONS, hne1, hne2, hne3, hne4, hne5, hne6, hne7, hne8]
                  unfold addToBucket normKey
                  simp only [if_neg (show ¬((sec == "top_stories") = true) from by simp [h1]), if_neg (show ¬((sec == "politics") = true) from by simp [h2]), if_neg (show ¬((sec == "housing") = true) from by simp [h3]), if_neg (show ¬((sec == "education") = true) from by simp [h4]), if_neg (show ¬((sec == "health") = true) from by simp [h5]), if_neg (show ¬((sec == "environment") = true) from by simp [h6]), if_neg (show ¬((sec == "lastly") = true) from by simp [h7]), if_neg (show ¬((sec == "skip") = true) from by simp [h8]), if_neg (show ¬(SECTIONS.contains sec = true) from by simp [SECTIONS, hne1, hne2, hne3, hne4, hne5, hne6, hne7, hne8])]
                  rcases hk' with rfl | rfl | rfl | rfl | rfl | rfl | rfl | rfl <;>
                    simp [bucketGet]

theorem bucketGet_demoteStep (o : Organized) (s : Story) (k : String)
    (hk : SECTIONS.contains k = true) :
    bucketGet (demoteStep o s) k =
      bucketGet o k ++ (if demoteTarget s == k then [s] else []) := by
  have hk' := sections_cases hk
  unfold demoteStep demoteTarget
  by_cases h1 : kwMatch POLITICS_KW s = true
  · simp only [if_pos h1]
    rcases hk' with rfl | rfl | rfl | rfl | rfl | rfl | rfl | rfl <;>
      simp [bucketGet]
  ·
    by_cases h2 : kwMatch HOUSING_KW s = true
    · simp only [if_neg (show ¬(kwMatch POLITICS_KW s = true) from by simp [h1]), if_pos h2]
      rcases hk' with rfl | rfl | rfl | rfl | rfl | rfl | rfl | rfl <;>
        simp [bucketGet]
    ·
      by_cases h3 : kwMatch EDUCATION_KW s = true
      · simp only [if_neg (show ¬(kwMatch POLITICS_KW s = true) from by simp [h1]), if_neg (show ¬(kwMatch HOUSING_KW s = true) from by simp [h2]), if_pos h3]
        rcases hk' with rfl | rfl | rfl | rfl | rfl | rfl | rfl | rfl <;>
          simp [bucketGet]
      ·
        by_cases h4 : kwMatch HEALTH_KW s = true
        · simp only [if_neg (show ¬(kwMatch POLITICS_KW s = true) from by simp [h1]), if_neg (show ¬(kwMatch HOUSING_KW s = true) from by simp [h2]), if_neg (show ¬(kwMatch EDUCATION_KW s = true) from by simp [h3]), if_pos h4]
          rcases hk' with rfl | rfl | rfl | rfl | rfl | rfl | rfl | rfl <;>
            simp [bucketGet]
        ·
          by_cases h5 : kwMatch ENVIRONMENT_KW s = true
          · simp only [if_neg (show ¬(kwMatch POLITICS_KW s = true) from by simp [h1]), if_neg (show ¬(kwMatch HOUSING_KW s = true) from by simp [h2]), if_neg (show ¬(kwMatch EDUCATION_KW s = true) from by simp [h3]), if_neg (show ¬(kwMatch HEALTH_KW s = true) from by simp [h4]), if_pos h5]
            rcases hk' with rfl | rfl | rfl | rfl | rfl | rfl | rfl | rfl <;>
              simp [bucketGet]
          ·
            simp only [if_neg (show ¬(kwMatch POLITICS_KW s = true) from by simp [h1]), if_neg (show ¬(kwMatch HOUSING_KW s = true) from by simp [h2]), if_neg (show ¬(kwMatch EDUCATION_KW s = true) from by simp [h3]), if_neg (show ¬(kwMatch HEALTH_KW s = true) from by simp [h4]), if_neg (show ¬(kwMatch ENVIRONMENT_KW s = true) from by simp [h5])]
            rcases hk' with rfl | rfl | rfl | rfl | rfl | rfl | rfl | rfl <;>
              simp [bucketGet]

theorem bucketGet_classifyFold (l : List Story) (o : Organized) (k : String)
    (hk : SECTIONS.contains k = true) :
    bucketGet (l.foldl (fun o s => addToBucket o (s.«section».getD "lastly") s) o) k =
      bucketGet o k ++ l.filter (fun s => routeKey s == k) := by
  induction l generalizing o with
  | nil => simp
  | cons x xs ih =>
    rw [List.foldl_cons, ih, bucketGet_addToBucket o _ x k hk, List.filter_cons,
      List.append_assoc]
    congr 1
    rw [show normKey (x.«section».getD "lastly") = routeKey x from rfl]
    by_cases hx : (routeKey x == k) = true
    · rw [if_pos hx, if_pos hx]
      rfl
    · rw [if_neg hx, if_neg hx]
      rfl

theorem bucketGet_demoteFold (l : List Story) (o : Organized) (k : String)
    (hk : SECTIONS.contains k = true) :
    bucketGet (l.foldl demoteStep o) k =
      bucketGet o k ++ l.filter (fun s => demoteTarget s == k) := by
  induction l generalizing o with
  | nil => simp
  | cons x xs ih =>
    rw [List.foldl_cons, ih, bucketGet_demoteStep o x k hk, List.filter_cons,
      List.append_assoc]
    congr 1
    by_cases hx : (demoteTarget x == k) = true
    · rw [if_pos hx, if_pos hx]
      rfl
    · rw [if_neg hx, if_neg hx]
      rfl

theorem routeKey_top_iff (s : Story) : (routeKey s == "top_stories") = isTop s := by
  unfold routeKey normKey isTop
  by_cases h : (SECTIONS.contains (s.«section».getD "lastly")) = true
  · rw [if_pos h]
  · rw [if_neg h]
    cases hx : (s.«section».getD "lastly" == "top_stories") with
    | false => rfl
    | true =>
      exfalso
      have he : s.«section».getD "lastly" = "top_stories" := by simpa using hx
      rw [he] at h
      exact h (by decide)

theorem classifyFold_top (stories : List Story) :
    (List.foldl (fun o s => addToBucket o (s.«section».getD "lastly") s) {} stories).top_stories
      = stories.filter isTop := by
  have h := bucketGet_classifyFold stories {} "top_stories" (by decide)
  rw [bucketGet_top, bucketGet_empty] at h
  rw [h, List.nil_append]
  exact List.filter_congr (fun s _ => routeKey_top_iff s)

theorem demoteTarget_ne_top (s : Story) : (demoteTarget s == "top_stories") = false := by
  unfold demoteTarget
  split_ifs <;> rfl

theorem filter_demote_top (l : List Story) :
    l.filter (fun s => demoteTarget s == "top_stories") = [] := by
  induction l with
  | nil => rfl
  | cons x xs ih =>
    rw [List.filter_cons, if_neg (by simp [demoteTarget_ne_top])]
    exact ih

theorem organize_by_section_top (stories : List Story) (M : Nat) :
    (organize_by_section stories M).top_stories = (stories.filter isTop).take M := by
  unfold organize_by_section
  simp only
  split_ifs with hov
  · have h2 := bucketGet_demoteFold
      ((List.foldl (fun o s => addToBucket o (s.«section».getD "lastly") s) {} stories).top_stories.drop M)
      { List.foldl (fun o s => addToBucket o (s.«section».getD "lastly") s) {} stories with
        top_stories :=
          (List.foldl (fun o s => addToBucket o (s.«section».getD "lastly") s) {} stories).top_stories.take M }
      "top_stories" (by decide)
    rw [bucketGet_top, bucketGet_top, filter_demote_top, List.append_nil] at h2
    rw [h2]
    simp only
    rw [classifyFold_top]
  · rw [classifyFold_top]
    rw [classifyFold_top] at hov
    rw [List.take_of_length_le (by omega)]

theorem organize_by_section_bucket (stories : List Story) (M : Nat) (k : String)
    (hk : SECTIONS.contains k = true) (hkt : k ≠ "top_stories") :
    bucketGet (organize_by_section stories M) k =
      stories.filter (fun s => routeKey s == k) ++
        ((stories.filter isTop).drop M).filter (fun s => demoteTarget s == k) := by
  unfold organize_by_section
  simp only
  split_ifs with hov
  · rw [bucketGet_demoteFold _ _ k hk, bucketGet_set_top hkt,
      bucketGet_classifyFold _ _ k hk, bucketGet_empty, List.nil_append, classifyFold_top]
  · rw [bucketGet_classifyFold _ _ k hk, bucketGet_empty, List.nil_append]
    rw [classifyFold_top] at hov
    rw [List.drop_eq_nil_of_le (by omega)]
    simp

/-! ## Organizer permutation lemmas -/

theorem allStories_addToBucket (o : Organized) (sec : String) (s : Story) :
    (allStories (addToBucket o sec s)).Perm (allStories o ++ [s]) := by
  unfold addToBucket
  split_ifs <;>
    (simp only [allStories]
     rw [← Multiset.coe_eq_coe]
     simp only [← Multiset.coe_add]
     abel)

theorem allStories_demoteStep (o : Organized) (s : Story) :
    (allStories (demoteStep o s)).Perm (allStories o ++ [s]) := by
  unfold demoteStep
  split_ifs <;>
    (simp only [allStories]
     rw [← Multiset.coe_eq_coe]
     simp only [← Multiset.coe_add]
     abel)

theorem allStories_foldl_perm {step : Organized → Story → Organized}
    (hstep : ∀ o s, (allStories (step o s)).Perm (allStories o ++ [s])) :
    ∀ (l : List Story) (o : Organized),
      (allStories (l.foldl step o)).Perm (allStories o ++ l) := by
  intro l
  induction l with
  | nil => intro o; simp
  | cons x xs ih =>
    intro o
    rw [List.foldl_cons]
    refine (ih (step o x)).trans ?_
    refine ((hstep o x).append_right xs).trans ?_
    rw [List.append_assoc]
    exact List.Perm.refl _

theorem organize_perm_core (stories : List Story) (M : Nat) :
    (allStories (organize_by_section stories M)).Perm stories := by
  have hbase : (allStories
      (List.foldl (fun o s => addToBucket o (s.«section».getD "lastly") s) {} stories)).Perm
      stories := by
    simpa [allStories] using
      allStories_foldl_perm (fun o s => allStories_addToBucket o _ s) stories {}
  unfold organize_by_section
  simp only
  split_ifs with hov
  · refine ((allStories_foldl_perm allStories_demoteStep _ _).trans ?_).trans hbase
    rw [← Multiset.coe_eq_coe]
    simp only [allStories, ← Multiset.coe_add]
    have hsplit :
        (↑((List.foldl (fun o s => addToBucket o (s.«section».getD "lastly") s) {} stories).top_stories) :
          Multiset Story) =
        ↑((List.foldl (fun o s => addToBucket o (s.«section».getD "lastly") s) {} stories).top_stories.take M) +
        ↑((List.foldl (fun o s => addToBucket o (s.«section».getD "lastly") s) {} stories).top_stories.drop M) := by
      rw [Multiset.coe_add, List.take_append_drop]
    rw [hsplit]
    abel
  · exact hbase

/-! ## Organizer claim theorems -/

/-- Claim C8: the organizer keeps exactly the first `M` priority-labeled
stories (arrival order) in the priority bucket; every other fixed bucket
holds its routed stories followed by the demoted overflow stories whose
headline selects it; and the demotion target is decided by the keyword
groups in the fixed order politics, housing, education, health,
environment, with the catch-all as the default. -/
theorem organize_contract (stories : List Story) (M : Nat) :
    (organize_by_section stories M).top_stories = (stories.filter isTop).take M ∧
    (∀ k, SECTIONS.contains k = true → k ≠ "top_stories" →
      bucketGet (organize_by_section stories M) k =
        stories.filter (fun s => routeKey s == k) ++
          ((stories.filter isTop).drop M).filter (fun s => demoteTarget s == k)) ∧
    (∀ s, kwMatch POLITICS_KW s = true → demoteTarget s = "politics") ∧
    (∀ s, kwMatch POLITICS_KW s = false → kwMatch HOUSING_KW s = true →
      demoteTarget s = "housing") ∧
    (∀ s, kwMatch POLITICS_KW s = false → kwMatch HOUSING_KW s = false →
      kwMatch EDUCATION_KW s = true → demoteTarget s = "education") ∧
    (∀ s, kwMatch POLITICS_KW s = false → kwMatch HOUSING_KW s = false →
      kwMatch EDUCATION_KW s = false → kwMatch HEALTH_KW s = true →
      demoteTarget s = "health") ∧
    (∀ s, kwMatch POLITICS_KW s = false → kwMatch HOUSING_KW s = false →
      kwMatch EDUCATION_KW s = false → kwMatch HEALTH_KW s = false →
      kwMatch ENVIRONMENT_KW s = true → demoteTarget s = "environment") ∧
    (∀ s, kwMatch POLITICS_KW s = false → kwMatch HOUSING_KW s = false →
      kwMatch EDUCATION_KW s = false → kwMatch HEALTH_KW s = false →
      kwMatch ENVIRONMENT_KW s = false → demoteTarget s = "lastly") := by
  refine ⟨organize_by_section_top stories M, organize_by_section_bucket stories M,
    ?_, ?_, ?_, ?_, ?_, ?_⟩
  · intro s h1
    unfold demoteTarget
    rw [if_pos h1]
  · intro s h1 h2
    unfold demoteTarget
    rw [if_neg (by simp [h1]), if_pos h2]
  · intro s h1 h2 h3
    unfold demoteTarget
    rw [if_neg (by simp [h1]), if_neg (by simp [h2]), if_pos h3]
  · intro s h1 h2 h3 h4
    unfold demoteTarget
    rw [if_neg (by simp [h1]), if_neg (by simp [h2]), if_neg (by simp [h3]), if_pos h4]
  · intro s h1 h2 h3 h4 h5
    unfold demoteTarget
    rw [if_neg (by simp [h1]), if_neg (by simp [h2]), if_neg (by simp [h3]),
      if_neg (by simp [h4]), if_pos h5]
  · intro s h1 h2 h3 h4 h5
    unfold demoteTarget
    rw [if_neg (by simp [h1]), if_neg (by simp [h2]), if_neg (by simp [h3]),
      if_neg (by simp [h4]), if_neg (by simp [h5])]

/-- Witness for C8 at the spec's overflow example: capacity 2 with three
priority stories keeps the first two and demotes the third, whose
`"school board"` headline selects the education bucket. -/
theorem organize_contract_witness :
    (organize_by_section [exTop1, exTop2, exTop3] 2).top_stories = [exTop1, exTop2] ∧
    (organize_by_section [exTop1, exTop2, exTop3] 2).education = [exTop3] ∧
    demoteTarget exTop3 = "education" := by
  have h := organize_contract [exTop1, exTop2, exTop3] 2
  have hdem : demoteTarget exTop3 = "education" :=
    h.2.2.2.2.1 exTop3 (by decide) (by decide) (by decide)
  refine ⟨?_, ?_, hdem⟩
  · rw [h.1]
    decide
  · have h2 := h.2.1 "education" (by decide) (by decide)
    rw [show bucketGet (organize_by_section [exTop1, exTop2, exTop3] 2) "education" =
        (organize_by_section [exTop1, exTop2, exTop3] 2).education from rfl] at h2
    rw [h2]
    decide

/-- Claim C9: every input story lands in exactly one bucket — the section
lists of the organizer's output are a permutation of the input (nothing
dropped or duplicated), and a story whose label is outside the fixed enum
lands in the catch-all `lastly` bucket. -/
theorem organize_total (stories : List Story) (M : Nat) :
    (allStories (organize_by_section stories M)).Perm stories ∧
    (∀ s ∈ stories, SECTIONS.contains (s.«section».getD "lastly") = false →
      s ∈ (organize_by_section stories M).lastly) := by
  refine ⟨organize_perm_core stories M, ?_⟩
  intro s hs hbad
  have hroute : (routeKey s == "lastly") = true := by
    unfold routeKey normKey
    rw [if_neg (by simpa using hbad)]
    rfl
  have h2 := organize_by_section_bucket stories M "lastly" (by decide) (by decide)
  rw [show bucketGet (organize_by_section stories M) "lastly" =
      (organize_by_section stories M).lastly from rfl] at h2
  rw [h2]
  refine List.mem_append.mpr (Or.inl ?_)
  exact List.mem_filter.mpr ⟨hs, hroute⟩

/-- Witness for C9: a story labeled outside the enum is routed to the
catch-all bucket, and the output buckets are a permutation of the
input. -/
theorem organize_total_witness :
    exBogus ∈ (organize_by_section [exBogus, exTop1] 6).lastly ∧
    (allStories (organize_by_section [exBogus, exTop1] 6)).Perm [exBogus, exTop1] := by
  have h := organize_total [exBogus, exTop1] 6
  exact ⟨h.2 exBogus (by decide) (by decide), h.1⟩


/-! ## Post-filter claim theorem -/

/-- Claim C5 (code evidence): `filter_top_stories` implements exactly the
claimed override — priority label plus a matching exclusion keyword turns
into the `skip` label with a recorded reason, deterministically and with
no oracle call — but no code in the repository ever invokes it: the
pipeline's classify → deduplicate → organize chain leaves a
priority-labeled crime headline in the priority bucket with its label
untouched. -/
theorem filter_top_stories_dead_code :
    classify_all_stories exTopOracleB exErrOracleS [exCrash] 10 = .ok [exCrashTop] ∧
    exCrashTop.«section» = some "top_stories" ∧
    is_crime_or_crash_headline (headlineOrTitle exCrashTop) = true ∧
    (organize_by_section (deduplicate_stories [exCrashTop]) 6).top_stories = [exCrashTop] ∧
    filter_top_stories [exCrashTop] = [exCrashSkip] := by
  refine ⟨?_, rfl, rfl, rfl, rfl⟩
  have hc : chunkList 10
      ([exCrash].filter (fun s => !(s.from_airtable && sectionTruthy s))) = [[exCrash]] := by
    rw [show [exCrash].filter (fun s => !(s.from_airtable && sectionTruthy s)) = [exCrash]
      from rfl]
    exact chunkList_small (by simp) (by simp) (by simp)
  unfold classify_all_stories classify_stories_batch
  simp only
  rw [hc]
  rfl


end DNR
